import Mathlib

/-!
Verification of the three-stage LLM council orchestration engine
(`backend-go/council.go`, `backend-go/openrouter.go`).

Strings are modelled as `List Char` (Go strings over their runes).  The
model-query transport (`QueryModel`, an HTTP round trip) is the boundary
collaborator and is abstracted as an oracle `Invoker` mapping a model id
and message list to either a response or an error string.  Go's `float64`
average is modelled as an exact rational; all sums and counts in scope are
exactly representable.  Go map iteration order is unspecified; maps are
modelled as insertion-ordered association lists, and every property proved
below is insensitive to that traversal order.
-/

/-- Go strings, modelled as their rune sequence. -/
abbrev Str := List Char

/-- Shorthand turning a Lean string literal into the `List Char` model. -/
def str (s : String) : Str := s.toList

/-- Go `map[string]α`, modelled as an insertion-ordered association list. -/
abbrev SMap (α : Type) := List (Str × α)

/-- Lookup in an association list (Go map read `m[k]`). -/
def alookup {α : Type} : SMap α → Str → Option α
  | [], _ => none
  | (k, v) :: rest, x => if x = k then some v else alookup rest x

/-- Insertion into an association list (Go map write `m[k] = v`): replaces the
existing entry for the key in place, or appends a new entry. -/
def ainsert {α : Type} : SMap α → Str → α → SMap α
  | [], k, v => [(k, v)]
  | (k', v') :: rest, k, v =>
      if k = k' then (k, v) :: rest else (k', v') :: ainsert rest k v

/-- Concatenation of a list of lists (used for spec-side characterizations). -/
def catList {α : Type} (l : List (List α)) : List α := l.foldr (· ++ ·) []

/- ### Character classes of the Go regular expressions -/

/-- Class `[0-9]`, the RE2 `\d` class. -/
def goIsDigit (c : Char) : Bool := '0' ≤ c && c ≤ '9'

/-- Class `[\t\n\f\r ]`, the RE2 `\s` class. -/
def goIsSpace (c : Char) : Bool :=
  c = ' ' || c = '\t' || c = '\n' || c = '\x0c' || c = '\r'

/-- Class `[A-Z]`. -/
def goIsUpper (c : Char) : Bool := 'A' ≤ c && c ≤ 'Z'

/-- The literal part `Response ` of the pattern `Response [A-Z]`. -/
def respHead : Str := ['R', 'e', 's', 'p', 'o', 'n', 's', 'e', ' ']

/-- Match of the regex `Response [A-Z]` anchored at the start of `l`:
returns the matched text and the remainder, if the text begins with
`Response ` followed by an uppercase letter. -/
def respAt (l : Str) : Option (Str × Str) :=
  if l.take 9 = respHead then
    match l.drop 9 with
    | c :: rest => if goIsUpper c then some (respHead ++ [c], rest) else none
    | [] => none
  else none

/-- Go `regexp.FindAllString` for the pattern `Response [A-Z]`: left-to-right
scan emitting each non-overlapping leftmost match.  `skip` counts positions
still to be skipped past the previous match (the match is 10 runes long, so
9 further positions are skipped after its first rune). -/
def scanResp : Str → Nat → List Str
  | [], _ => []
  | _ :: rest, skip + 1 => scanResp rest skip
  | c :: rest, 0 =>
      match respAt (c :: rest) with
      | some (m, _) => m :: scanResp rest 9
      | none => scanResp rest 0

/-- Go `regexp.FindString` for the pattern `Response [A-Z]`: the leftmost match,
if any. -/
def findFirstResp : Str → Option Str
  | [] => none
  | c :: rest =>
      match respAt (c :: rest) with
      | some (m, _) => some m
      | none => findFirstResp rest

/-- Match of the regex `\d+\.\s*Response [A-Z]` anchored at the start of `l`.
The greedy `\d+` and `\s*` are deterministic here because a digit never
equals `.` and a whitespace rune never equals `R`, so maximal munch is the
only possible parse. -/
def numAt (l : Str) : Option (Str × Str) :=
  if (l.takeWhile goIsDigit).isEmpty then none
  else
    match l.dropWhile goIsDigit with
    | c0 :: r2 =>
        if c0 = '.' then
          match respAt (r2.dropWhile goIsSpace) with
          | some (m, after) =>
              some (l.takeWhile goIsDigit ++ '.' :: (r2.takeWhile goIsSpace ++ m), after)
          | none => none
        else none
    | [] => none

/-- Go `regexp.FindAllString` for `\d+\.\s*Response [A-Z]`: left-to-right scan
emitting non-overlapping leftmost matches, skipping past each match. -/
def scanNum : Str → Nat → List Str
  | [], _ => []
  | _ :: rest, skip + 1 => scanNum rest skip
  | c :: rest, 0 =>
      match numAt (c :: rest) with
      | some (m, _) => m :: scanNum rest (m.length - 1)
      | none => scanNum rest 0

/- ### The ranking marker and section extraction -/

/-- The literal marker `FINAL RANKING:` (case-sensitive, with colon). -/
def marker : Str := str "FINAL RANKING:"

/-- Does `text` begin with `pat`? -/
def begMatch : Str → Str → Bool
  | [], _ => true
  | _ :: _, [] => false
  | p :: ps, c :: cs => p = c && begMatch ps cs

/-- The text after the first occurrence of `pat` in `text` (`none` when `pat`
does not occur): the `strings.Contains` test plus the start of
`strings.Split(text, pat)[1]`. -/
def afterFirst (pat : Str) : Str → Option Str
  | [] => none
  | c :: rest =>
      if begMatch pat (c :: rest) then some ((c :: rest).drop pat.length)
      else afterFirst pat rest

/-- The prefix of `l` before the next occurrence of `pat` (all of `l` when
`pat` does not occur): completes `strings.Split(text, pat)[1]`, which ends at
the next occurrence of the separator. -/
def upToNext (pat : Str) : Str → Str
  | [] => []
  | c :: rest => if begMatch pat (c :: rest) then [] else c :: upToNext pat rest

/-- Function `ParseRankingFromText` (council.go): extracts the ranking from a model's
response text.  Looks for a `FINAL RANKING:` section and parses numbered
responses; falls back to extracting `Response X` patterns, first from the
section, then from the whole text. -/
def ParseRankingFromText (rankingText : Str) : List Str :=
  match afterFirst marker rankingText with
  | some afterM =>
      let rankingSection := upToNext marker afterM
      let numberedMatches := scanNum rankingSection 0
      if numberedMatches.isEmpty then
        let ms := scanResp rankingSection 0
        if ms.isEmpty then scanResp rankingText 0 else ms
      else
        numberedMatches.filterMap findFirstResp
  | none => scanResp rankingText 0

/- ### Data model (models.go) -/

/-- A message for the OpenRouter API. -/
structure OpenRouterMessage where
  role : Str
  content : Str
deriving DecidableEq

/-- A model's response (only the content is consumed by the council logic). -/
structure OpenRouterResponse where
  content : Str
deriving DecidableEq

/-- A single model's response in Stage 1. -/
structure Stage1Response where
  model : Str
  response : Str
deriving DecidableEq

/-- A model's ranking of the anonymized responses in Stage 2. -/
structure Stage2Ranking where
  model : Str
  ranking : Str
  parsedRanking : List Str
deriving DecidableEq

/-- The chairman's final synthesis. -/
structure Stage3Response where
  model : Str
  response : Str
deriving DecidableEq

/-- The aggregate ranking across all models.  `averageRank` is Go's `float64`
average, modelled as an exact rational. -/
structure AggregateRanking where
  model : Str
  averageRank : ℚ
  rankingsCount : Nat
deriving DecidableEq

/-- Additional information about the council process. -/
structure Metadata where
  labelToModel : SMap Str
  aggregateRankings : List AggregateRanking
deriving DecidableEq

/- ### Transport (openrouter.go) -/

/-- The boundary Model Invoker: one network round trip per call, returning
either a response or an error string.  `QueryModel`'s HTTP mechanics are
abstracted behind this oracle. -/
abbrev Invoker := Str → List OpenRouterMessage → Except Str OpenRouterResponse

/-- Function `QueryModel` (openrouter.go): queries a single model.  The HTTP round
trip is the boundary collaborator, represented by the `invoke` oracle. -/
def QueryModel (invoke : Invoker) (model : Str) (messages : List OpenRouterMessage) :
    Except Str OpenRouterResponse :=
  invoke model messages

/-- The body of the per-model goroutine in `QueryModelsParallel`: on error it
logs, stores `nil` in the results map and returns `nil` to the errgroup; on
success it stores the response and returns `nil`.  First component: the value
written to the map; second: the error handed to the errgroup (always none). -/
def queryTask (invoke : Invoker) (messages : List OpenRouterMessage) (model : Str) :
    Option OpenRouterResponse × Option Str :=
  match QueryModel invoke model messages with
  | .error _ => (none, none)
  | .ok r => (some r, none)

/-- The first error collected by `errgroup.Wait`. -/
def firstSome (l : List (Option Str)) : Option Str := (l.filterMap id).head?

/-- Function `QueryModelsParallel` (openrouter.go): queries all models in parallel and
joins at the errgroup barrier.  Each goroutine writes only its own key under
the mutex, so the final map content is independent of interleaving; it is
modelled as a fold inserting each model's outcome.  Returns the results map
and the `g.Wait()` error. -/
def QueryModelsParallel (invoke : Invoker) (models : List Str)
    (messages : List OpenRouterMessage) : SMap (Option OpenRouterResponse) × Option Str :=
  (models.foldl (fun acc model => ainsert acc model (queryTask invoke messages model).1) [],
   firstSome (models.map fun model => (queryTask invoke messages model).2))

/- ### Stage 1 (council.go) -/

/-- The single-message Stage-1 prompt: just the raw user query. -/
def stage1MessagesOf (userQuery : Str) : List OpenRouterMessage :=
  [⟨str "user", userQuery⟩]

/-- The Stage-1 result list: successful responses only, in the traversal
order of the results map. -/
def stage1ListOf (invoke : Invoker) (councilModels : List Str) (userQuery : Str) :
    List Stage1Response :=
  (QueryModelsParallel invoke councilModels (stage1MessagesOf userQuery)).1.filterMap
    fun p => p.2.map fun r => ⟨p.1, r.content⟩

/-- Function `Stage1CollectResponses` (council.go): collects individual responses from
all council models; only successful responses are included. -/
def Stage1CollectResponses (invoke : Invoker) (councilModels : List Str)
    (userQuery : Str) : Except Str (List Stage1Response) :=
  match (QueryModelsParallel invoke councilModels (stage1MessagesOf userQuery)).2 with
  | some e => .error (str "failed to query models: " ++ e)
  | none => .ok (stage1ListOf invoke councilModels userQuery)

/- ### Stage 2 (council.go) -/

/-- The anonymized label letter for the `i`-th Stage-1 result:
Go `string(rune('A' + i))`. -/
def labelChar (i : Nat) : Char := Char.ofNat ('A'.toNat + i)

/-- The anonymized label key `Response <letter>` for the `i`-th result. -/
def labelFor (i : Nat) : Str := str "Response " ++ [labelChar i]

/-- The label→model map built by the Stage-2 loop, with explicit index. -/
def labelMapAux : Nat → SMap Str → List Stage1Response → SMap Str
  | _, acc, [] => acc
  | i, acc, r :: rest => labelMapAux (i + 1) (ainsert acc (labelFor i) r.model) rest

/-- The label→model map for a Stage-1 result list (labels assigned in
collection order). -/
def labelMapOf (stage1Results : List Stage1Response) : SMap Str :=
  labelMapAux 0 [] stage1Results

/-- The anonymized responses block built by the Stage-2 loop
(`Response <letter>:\n<response>\n\n` per result, in order). -/
def responsesTextAux : Nat → Str → List Stage1Response → Str
  | _, acc, [] => acc
  | i, acc, r :: rest =>
      responsesTextAux (i + 1)
        (acc ++ (str "Response " ++ [labelChar i] ++ str ":\n" ++ r.response ++ str "\n\n")) rest

/-- The full anonymized responses block for a Stage-1 result list. -/
def responsesTextOf (stage1Results : List Stage1Response) : Str :=
  responsesTextAux 0 [] stage1Results

/-- The Stage-2 ranking prompt (council.go): the literal template with the
user query and anonymized responses spliced in. -/
def rankingPromptOf (userQuery : Str) (stage1Results : List Stage1Response) : Str :=
  str "You are evaluating different responses to the following question:\n\nQuestion: "
    ++ userQuery
    ++ str "\n\nHere are the responses from different models (anonymized):\n\n"
    ++ responsesTextOf stage1Results
    ++ str "\n\nYour task:\n1. First, evaluate each response individually. For each response, explain what it does well and what it does poorly.\n2. Then, at the very end of your response, provide a final ranking.\n\nIMPORTANT: Your final ranking MUST be formatted EXACTLY as follows:\n- Start with the line \"FINAL RANKING:\" (all caps, with colon)\n- Then list the responses from best to worst as a numbered list\n- Each line should be: number, period, space, then ONLY the response label (e.g., \"1. Response A\")\n- Do not add any other text or explanations in the ranking section\n\nExample of the correct format for your ENTIRE response:\n\nResponse A provides good detail on X but misses Y...\nResponse B is accurate but lacks depth on Z...\nResponse C offers the most comprehensive answer...\n\nFINAL RANKING:\n1. Response C\n2. Response A\n3. Response B\n\nNow provide your evaluation and ranking:"

/-- The Stage-2 message list. -/
def stage2MessagesOf (userQuery : Str) (stage1Results : List Stage1Response) :
    List OpenRouterMessage :=
  [⟨str "user", rankingPromptOf userQuery stage1Results⟩]

/-- The Stage-2 ranking records: one per model that responded, with the
ranking text parsed by `ParseRankingFromText`. -/
def stage2ListOf (invoke : Invoker) (councilModels : List Str) (userQuery : Str)
    (stage1Results : List Stage1Response) : List Stage2Ranking :=
  (QueryModelsParallel invoke councilModels (stage2MessagesOf userQuery stage1Results)).1.filterMap
    fun p => p.2.map fun r => ⟨p.1, r.content, ParseRankingFromText r.content⟩

/-- Function `Stage2CollectRankings` (council.go): collects rankings from each model
on the anonymized responses; returns the records and the label→model map. -/
def Stage2CollectRankings (invoke : Invoker) (councilModels : List Str)
    (userQuery : Str) (stage1Results : List Stage1Response) :
    Except Str (List Stage2Ranking × SMap Str) :=
  match (QueryModelsParallel invoke councilModels (stage2MessagesOf userQuery stage1Results)).2 with
  | some e => .error (str "failed to query models for rankings: " ++ e)
  | none => .ok (stage2ListOf invoke councilModels userQuery stage1Results,
                 labelMapOf stage1Results)

/- ### Stage 3 (council.go) -/

/-- The Stage-1 context block of the chairman prompt
(`Model: <model>\nResponse: <response>\n\n` per result, in order). -/
def stage1TextOf (stage1Results : List Stage1Response) : Str :=
  stage1Results.foldl
    (fun acc r => acc ++ (str "Model: " ++ r.model ++ str "\nResponse: " ++ r.response ++ str "\n\n"))
    []

/-- The Stage-2 context block of the chairman prompt
(`Model: <model>\nRanking: <raw ranking>\n\n` per record, in order). -/
def stage2TextOf (stage2Results : List Stage2Ranking) : Str :=
  stage2Results.foldl
    (fun acc r => acc ++ (str "Model: " ++ r.model ++ str "\nRanking: " ++ r.ranking ++ str "\n\n"))
    []

/-- The chairman prompt (council.go): the literal template with the query and
the unanonymized Stage-1/Stage-2 context spliced in. -/
def chairmanPromptOf (userQuery : Str) (stage1Results : List Stage1Response)
    (stage2Results : List Stage2Ranking) : Str :=
  str "You are the Chairman of an LLM Council. Multiple AI models have provided responses to a user's question, and then ranked each other's responses.\n\nOriginal Question: "
    ++ userQuery
    ++ str "\n\nSTAGE 1 - Individual Responses:\n"
    ++ stage1TextOf stage1Results
    ++ str "\n\nSTAGE 2 - Peer Rankings:\n"
    ++ stage2TextOf stage2Results
    ++ str "\n\nYour task as Chairman is to synthesize all of this information into a single, comprehensive, accurate answer to the user's original question. Consider:\n- The individual responses and their insights\n- The peer rankings and what they reveal about response quality\n- Any patterns of agreement or disagreement\n\nProvide a clear, well-reasoned final answer that represents the council's collective wisdom:"

/-- The Stage-3 message list. -/
def stage3MessagesOf (userQuery : Str) (stage1Results : List Stage1Response)
    (stage2Results : List Stage2Ranking) : List OpenRouterMessage :=
  [⟨str "user", chairmanPromptOf userQuery stage1Results stage2Results⟩]

/-- Function `Stage3SynthesizeFinal` (council.go): queries the chairman model once with
the full context; a failure is surfaced to the caller. -/
def Stage3SynthesizeFinal (invoke : Invoker) (chairmanModel : Str) (userQuery : Str)
    (stage1Results : List Stage1Response) (stage2Results : List Stage2Ranking) :
    Except Str Stage3Response :=
  match QueryModel invoke chairmanModel (stage3MessagesOf userQuery stage1Results stage2Results) with
  | .error e => .error (str "chairman model query failed: " ++ e)
  | .ok r => .ok ⟨chairmanModel, r.content⟩

/- ### Aggregation (council.go) -/

/-- The inner loop of `CalculateAggregateRankings`: walk one parsed ranking
with its 0-based position, and for each label present in the label→model map
append `position+1` to that model's position list. -/
def addPositionsAux (labelToModel : SMap Str) :
    Nat → SMap (List Nat) → List Str → SMap (List Nat)
  | _, acc, [] => acc
  | position, acc, label :: rest =>
      match alookup labelToModel label with
      | some modelName =>
          addPositionsAux labelToModel (position + 1)
            (ainsert acc modelName ((alookup acc modelName).getD [] ++ [position + 1])) rest
      | none => addPositionsAux labelToModel (position + 1) acc rest

/-- The `modelPositions` map accumulated over all Stage-2 records. -/
def collectPositions (stage2Results : List Stage2Ranking) (labelToModel : SMap Str) :
    SMap (List Nat) :=
  stage2Results.foldl (fun acc r => addPositionsAux labelToModel 0 acc r.parsedRanking) []

/-- The unsorted aggregate list: one entry per model with a non-empty
position list, with the exact average of its positions. -/
def buildAggregate (modelPositions : SMap (List Nat)) : List AggregateRanking :=
  modelPositions.filterMap fun p =>
    if p.2.length > 0 then
      some ⟨p.1, ((p.2.sum : ℚ) / (p.2.length : ℚ)), p.2.length⟩
    else none

/-- The comparator of the final `sort.Slice` (lower average rank is better). -/
def rankLE (a b : AggregateRanking) : Prop := a.averageRank ≤ b.averageRank

instance : DecidableRel rankLE := fun a b =>
  (inferInstance : Decidable (a.averageRank ≤ b.averageRank))

instance : IsTotal AggregateRanking rankLE := ⟨fun a b => le_total a.averageRank b.averageRank⟩

instance : IsTrans AggregateRanking rankLE := ⟨fun _ _ _ h1 h2 => le_trans h1 h2⟩

/-- Function `CalculateAggregateRankings` (council.go): average rank position per
model, sorted ascending by average rank.  Go's `sort.Slice` produces a sorted
permutation with unspecified tie order; it is modelled as insertion sort,
likewise a sorted permutation. -/
def CalculateAggregateRankings (stage2Results : List Stage2Ranking)
    (labelToModel : SMap Str) : List AggregateRanking :=
  List.insertionSort rankLE (buildAggregate (collectPositions stage2Results labelToModel))

/- ### Orchestrator (council.go) -/

/-- The fatal error for a Stage-1 total failure. -/
def allFailedErr : Str := str "all council models failed to respond"

/-- Function `RunFullCouncil` (council.go): the complete 3-stage council process.
All-or-nothing: on any fatal branch no stage results are returned. -/
def RunFullCouncil (invoke : Invoker) (councilModels : List Str) (chairmanModel : Str)
    (userQuery : Str) :
    Except Str (List Stage1Response × List Stage2Ranking × Stage3Response × Metadata) :=
  match Stage1CollectResponses invoke councilModels userQuery with
  | .error e => .error (str "stage 1 failed: " ++ e)
  | .ok stage1Results =>
      if stage1Results.length = 0 then .error allFailedErr
      else
        match Stage2CollectRankings invoke councilModels userQuery stage1Results with
        | .error e => .error (str "stage 2 failed: " ++ e)
        | .ok (stage2Results, labelToModel) =>
            match Stage3SynthesizeFinal invoke chairmanModel userQuery stage1Results stage2Results with
            | .error e => .error (str "stage 3 failed: " ++ e)
            | .ok stage3Result =>
                .ok (stage1Results, stage2Results, stage3Result,
                     ⟨labelToModel, CalculateAggregateRankings stage2Results labelToModel⟩)

/- ### Spec-side characterizations -/

/-- The 1-based positions at which one parsed ranking mentions a label mapped
to `model` (spec side, for comparison with `addPositionsAux`). -/
def occPosAux (labelToModel : SMap Str) (model : Str) : Nat → List Str → List Nat
  | _, [] => []
  | position, label :: rest =>
      if alookup labelToModel label = some model then
        (position + 1) :: occPosAux labelToModel model (position + 1) rest
      else occPosAux labelToModel model (position + 1) rest

/-- All 1-based positions assigned to `model` across the Stage-2 records,
counted with multiplicity (spec side). -/
def occPositions (stage2Results : List Stage2Ranking) (labelToModel : SMap Str)
    (model : Str) : List Nat :=
  catList (stage2Results.map fun r => occPosAux labelToModel model 0 r.parsedRanking)

/-- The number of rankers that placed `model` somewhere in their parsed order
(spec side; duplicates within one ranking count once here). -/
def rankersPlacing (stage2Results : List Stage2Ranking) (labelToModel : SMap Str)
    (model : Str) : Nat :=
  (stage2Results.filter fun r => !(occPosAux labelToModel model 0 r.parsedRanking).isEmpty).length


/-- The key list of an association-list map. -/
def skeys {α : Type} (m : SMap α) : List Str := m.map Prod.fst

/-- Spec-side in-order construction of the anonymized responses block. -/
def respCat : Nat → List Stage1Response → Str
  | _, [] => []
  | i, r :: rest =>
      (str "Response " ++ [labelChar i] ++ str ":\n" ++ r.response ++ str "\n\n")
        ++ respCat (i + 1) rest

/- ### Concrete inputs used to exercise the theorems on closed instances -/

/-- An oracle on which every invocation fails. -/
def failAllInvoker : Invoker := fun _ _ => .error (str "down")

/-- An oracle on which exactly the model `a` succeeds. -/
def mixedInvoker : Invoker := fun m _ =>
  if m = str "a" then .ok ⟨str "ra"⟩ else .error (str "boom")

/-- An oracle succeeding for the chairman and for Stage-1 queries on `q`, and
failing every Stage-2 (ranking) query. -/
def stage2FailInvoker : Invoker := fun model msgs =>
  if model = str "chair" then .ok ⟨str "final"⟩
  else if msgs = stage1MessagesOf (str "q") then .ok ⟨str "ans"⟩
  else .error (str "fail")

/-- One ranker that placed a single label. -/
def singleS2 : List Stage2Ranking := [⟨str "r", str "", [str "Response A"]⟩]

/-- Label map for the single-ranker example. -/
def singleLtm : SMap Str := [(str "Response A", str "mX")]

/-- The aggregate entry produced on the single-ranker example. -/
def singleEntry : AggregateRanking :=
  ⟨str "mX", ((([1] : List Nat).sum : ℚ) / (([1] : List Nat).length : ℚ)), 1⟩

/-- Two Stage-1 responses from distinct models. -/
def twoResponses : List Stage1Response := [⟨str "m1", str "a1"⟩, ⟨str "m2", str "a2"⟩]

/- ### Association-list lemmas -/

theorem skeys_nil {α : Type} : skeys ([] : SMap α) = [] := rfl

theorem skeys_cons {α : Type} (k : Str) (v : α) (m : SMap α) :
    skeys ((k, v) :: m) = k :: skeys m := rfl

theorem alookup_nil {α : Type} (x : Str) : alookup ([] : SMap α) x = none := rfl

theorem alookup_cons {α : Type} (k x : Str) (v : α) (m : SMap α) :
    alookup ((k, v) :: m) x = if x = k then some v else alookup m x := rfl

theorem alookup_ainsert {α : Type} (m : SMap α) (k x : Str) (v : α) :
    alookup (ainsert m k v) x = if x = k then some v else alookup m x := by
  induction m with
  | nil => rfl
  | cons hd tl ih =>
      obtain ⟨k', v'⟩ := hd
      by_cases hk : k = k'
      · subst hk
        by_cases hx : x = k <;> simp [ainsert, alookup_cons, hx]
      · by_cases hx : x = k'
        · subst hx
          simp [ainsert, hk, alookup_cons, Ne.symm hk]
        · simp [ainsert, hk, alookup_cons, hx, ih]

theorem alookup_ainsert_self {α : Type} (m : SMap α) (k : Str) (v : α) :
    alookup (ainsert m k v) k = some v := by
  simp [alookup_ainsert]

theorem alookup_ainsert_ne {α : Type} (m : SMap α) (k x : Str) (v : α) (h : x ≠ k) :
    alookup (ainsert m k v) x = alookup m x := by
  simp [alookup_ainsert, h]

theorem mem_ainsert {α : Type} (m : SMap α) (k x : Str) (v w : α)
    (h : (x, w) ∈ ainsert m k v) : (x = k ∧ w = v) ∨ (x, w) ∈ m := by
  induction m with
  | nil =>
      simp [ainsert] at h
      exact Or.inl h
  | cons hd tl ih =>
      obtain ⟨k', v'⟩ := hd
      by_cases hk : k = k'
      · subst hk
        simp only [ainsert, if_pos rfl] at h
        rcases List.mem_cons.mp h with h' | h'
        · exact Or.inl (by simpa using h')
        · exact Or.inr (List.mem_cons_of_mem _ h')
      · simp only [ainsert, if_neg hk] at h
        rcases List.mem_cons.mp h with h' | h'
        · exact Or.inr (List.mem_cons.mpr (Or.inl h'))
        · rcases ih h' with h'' | h''
          · exact Or.inl h''
          · exact Or.inr (List.mem_cons_of_mem _ h'')

theorem alookup_eq_none_iff {α : Type} (m : SMap α) (k : Str) :
    alookup m k = none ↔ k ∉ skeys m := by
  induction m with
  | nil => simp [alookup_nil, skeys_nil]
  | cons hd tl ih =>
      obtain ⟨k', v'⟩ := hd
      by_cases hk : k = k'
      · subst hk
        simp [alookup_cons, skeys_cons]
      · simp [alookup_cons, skeys_cons, hk, ih]

theorem skeys_ainsert_of_mem {α : Type} (m : SMap α) (k : Str) (v : α)
    (h : k ∈ skeys m) : skeys (ainsert m k v) = skeys m := by
  induction m with
  | nil => simp [skeys_nil] at h
  | cons hd tl ih =>
      obtain ⟨k', v'⟩ := hd
      by_cases hk : k = k'
      · subst hk
        simp [ainsert, skeys_cons]
      · rw [skeys_cons] at h
        rcases List.mem_cons.mp h with h' | h'
        · exact absurd h' hk
        · simp [ainsert, hk, skeys_cons, ih h']

theorem skeys_ainsert_of_not_mem {α : Type} (m : SMap α) (k : Str) (v : α)
    (h : k ∉ skeys m) : skeys (ainsert m k v) = skeys m ++ [k] := by
  induction m with
  | nil => simp [ainsert, skeys]
  | cons hd tl ih =>
      obtain ⟨k', v'⟩ := hd
      rw [skeys_cons] at h
      have h1 : k ≠ k' := fun he => h (List.mem_cons.mpr (Or.inl he))
      have h2 : k ∉ skeys tl := fun he => h (List.mem_cons.mpr (Or.inr he))
      simp [ainsert, h1, skeys_cons, ih h2]

theorem nodup_skeys_ainsert {α : Type} (m : SMap α) (k : Str) (v : α)
    (h : (skeys m).Nodup) : (skeys (ainsert m k v)).Nodup := by
  by_cases hk : k ∈ skeys m
  · rw [skeys_ainsert_of_mem m k v hk]
    exact h
  · rw [skeys_ainsert_of_not_mem m k v hk]
    simpa [List.nodup_append] using ⟨h, hk⟩

theorem alookup_of_mem_nodup {α : Type} (m : SMap α) (k : Str) (v : α)
    (hm : (k, v) ∈ m) (hn : (skeys m).Nodup) : alookup m k = some v := by
  induction m with
  | nil => simp at hm
  | cons hd tl ih =>
      obtain ⟨k', v'⟩ := hd
      rw [skeys_cons, List.nodup_cons] at hn
      rcases List.mem_cons.mp hm with h | h
      · have h1 : k = k' := (Prod.mk.injEq .. ▸ h).1
        have h2 : v = v' := (Prod.mk.injEq .. ▸ h).2
        simp [alookup_cons, h1, h2]
      · have hk : k ≠ k' := by
          intro he
          exact hn.1 (he ▸ List.mem_map.mpr ⟨(k, v), h, rfl⟩)
        rw [alookup_cons, if_neg hk]
        exact ih h hn.2

theorem mem_of_alookup_eq_some {α : Type} (m : SMap α) (k : Str) (v : α)
    (h : alookup m k = some v) : (k, v) ∈ m := by
  induction m with
  | nil => simp [alookup_nil] at h
  | cons hd tl ih =>
      obtain ⟨k', v'⟩ := hd
      by_cases hk : k = k'
      · subst hk
        rw [alookup_cons, if_pos rfl] at h
        exact List.mem_cons.mpr (Or.inl (by simpa using h.symm))
      · rw [alookup_cons, if_neg hk] at h
        exact List.mem_cons_of_mem _ (ih h)

/- ### Parallel-query fold lemmas -/

theorem alookup_insFold_not_mem {α : Type} (f : Str → α) (models : List Str)
    (acc : SMap α) (x : Str) (hx : x ∉ models) :
    alookup (models.foldl (fun acc model => ainsert acc model (f model)) acc) x
      = alookup acc x := by
  induction models generalizing acc with
  | nil => rfl
  | cons m rest ih =>
      have hxm : x ≠ m := fun he => hx (he ▸ List.mem_cons_self m rest)
      have hxr : x ∉ rest := fun he => hx (List.mem_cons_of_mem _ he)
      rw [List.foldl_cons, ih _ hxr, alookup_ainsert_ne _ _ _ _ hxm]

theorem alookup_insFold_mem {α : Type} (f : Str → α) (models : List Str)
    (acc : SMap α) (x : Str) (hx : x ∈ models) :
    alookup (models.foldl (fun acc model => ainsert acc model (f model)) acc) x
      = some (f x) := by
  induction models generalizing acc with
  | nil => simp at hx
  | cons m rest ih =>
      rw [List.foldl_cons]
      by_cases hxr : x ∈ rest
      · exact ih _ hxr
      · have hxm : x = m := by
          rcases List.mem_cons.mp hx with h | h
          · exact h
          · exact absurd h hxr
        subst hxm
        rw [alookup_insFold_not_mem f rest _ x hxr, alookup_ainsert_self]

theorem mem_insFold {α : Type} (f : Str → α) (models : List Str)
    (acc : SMap α) (p : Str × α)
    (hp : p ∈ models.foldl (fun acc model => ainsert acc model (f model)) acc) :
    (p.1 ∈ models ∧ p.2 = f p.1) ∨ p ∈ acc := by
  induction models generalizing acc with
  | nil => exact Or.inr hp
  | cons m rest ih =>
      rw [List.foldl_cons] at hp
      rcases ih _ hp with h | h
      · exact Or.inl ⟨List.mem_cons_of_mem _ h.1, h.2⟩
      · obtain ⟨x, w⟩ := p
        rcases mem_ainsert acc m x (f m) w h with h' | h'
        · exact Or.inl ⟨List.mem_cons.mpr (Or.inl h'.1), by simp [h'.1, h'.2]⟩
        · exact Or.inr h'

theorem nodup_skeys_insFold {α : Type} (f : Str → α) (models : List Str)
    (acc : SMap α) (h : (skeys acc).Nodup) :
    (skeys (models.foldl (fun acc model => ainsert acc model (f model)) acc)).Nodup := by
  induction models generalizing acc with
  | nil => exact h
  | cons m rest ih =>
      rw [List.foldl_cons]
      exact ih _ (nodup_skeys_ainsert _ _ _ h)

theorem queryTask_snd (invoke : Invoker) (messages : List OpenRouterMessage) (model : Str) :
    (queryTask invoke messages model).2 = none := by
  unfold queryTask QueryModel
  cases invoke model messages <;> rfl

theorem queryTask_fst (invoke : Invoker) (messages : List OpenRouterMessage) (model : Str) :
    (queryTask invoke messages model).1 = (invoke model messages).toOption := by
  unfold queryTask QueryModel
  cases invoke model messages <;> rfl

/-- Lemma: `QueryModelsParallel` never reports an error through the errgroup join:
every per-model goroutine returns `nil` whatever its invocation's outcome. -/
theorem queryModelsParallel_err_none (invoke : Invoker) (models : List Str)
    (messages : List OpenRouterMessage) :
    (QueryModelsParallel invoke models messages).2 = none := by
  unfold QueryModelsParallel firstSome
  induction models with
  | nil => rfl
  | cons m rest ih =>
      simp only [List.map_cons, List.filterMap_cons, queryTask_snd] at ih ⊢
      exact ih

theorem queryModelsParallel_lookup_mem (invoke : Invoker) (models : List Str)
    (messages : List OpenRouterMessage) (model : Str) (h : model ∈ models) :
    alookup (QueryModelsParallel invoke models messages).1 model
      = some (invoke model messages).toOption := by
  unfold QueryModelsParallel
  rw [alookup_insFold_mem _ _ _ _ h, queryTask_fst]

theorem queryModelsParallel_mem (invoke : Invoker) (models : List Str)
    (messages : List OpenRouterMessage) (p : Str × Option OpenRouterResponse)
    (hp : p ∈ (QueryModelsParallel invoke models messages).1) :
    p.1 ∈ models ∧ p.2 = (invoke p.1 messages).toOption := by
  rcases mem_insFold _ models [] p hp with h | h
  · exact ⟨h.1, by rw [h.2, queryTask_fst]⟩
  · simp at h

theorem queryModelsParallel_keys_mem (invoke : Invoker) (models : List Str)
    (messages : List OpenRouterMessage) (model : Str)
    (v : Option OpenRouterResponse)
    (h : alookup (QueryModelsParallel invoke models messages).1 model = some v) :
    model ∈ models :=
  (queryModelsParallel_mem invoke models messages (model, v)
    (mem_of_alookup_eq_some _ _ _ h)).1

theorem nodup_skeys_queryModelsParallel (invoke : Invoker) (models : List Str)
    (messages : List OpenRouterMessage) :
    (skeys (QueryModelsParallel invoke models messages).1).Nodup :=
  nodup_skeys_insFold _ models [] List.nodup_nil

/- ### Ranking-parser lemmas -/

theorem respAt_nil : respAt [] = none := by
  simp [respAt, respHead]

theorem respAt_some (l m after : Str) (h : respAt l = some (m, after)) :
    ∃ c, goIsUpper c = true ∧ m = respHead ++ [c] ∧ l = m ++ after := by
  unfold respAt at h
  by_cases h9 : l.take 9 = respHead
  · rw [if_pos h9] at h
    cases hd : l.drop 9 with
    | nil => rw [hd] at h; simp at h
    | cons c rest =>
        rw [hd] at h
        by_cases hup : goIsUpper c = true
        · simp only [if_pos hup, Option.some.injEq, Prod.mk.injEq] at h
          obtain ⟨hm, ha⟩ := h
          refine ⟨c, hup, hm.symm, ?_⟩
          have hl : l = l.take 9 ++ l.drop 9 := (List.take_append_drop 9 l).symm
          rw [hl, h9, hd, ← hm, ← ha, List.append_assoc]
          rfl
        · simp [hup] at h
  · rw [if_neg h9] at h
    simp at h

theorem respAt_of_head_ne (c : Char) (l : Str) (h : c ≠ 'R') : respAt (c :: l) = none := by
  have h9 : ¬(c :: l.take 8 = respHead) := by
    intro he
    exact h (by simpa [respHead] using congrArg List.head? he)
  simp [respAt, h9]

theorem respAt_match (c : Char) (rest : Str) (hup : goIsUpper c = true) :
    respAt (respHead ++ c :: rest) = some (respHead ++ [c], rest) := by
  have h9 : (respHead ++ c :: rest).take 9 = respHead := rfl
  have hd : (respHead ++ c :: rest).drop 9 = c :: rest := rfl
  unfold respAt
  rw [h9, if_pos rfl, hd]
  simp [hup]

theorem findFirstResp_of_respAt (l m after : Str) (h : respAt l = some (m, after)) :
    findFirstResp l = some m := by
  cases l with
  | nil => rw [respAt_nil] at h; simp at h
  | cons c rest => simp [findFirstResp, h]

theorem findFirstResp_append_of_ne (pre l : Str) (hpre : ∀ d ∈ pre, d ≠ 'R') :
    findFirstResp (pre ++ l) = findFirstResp l := by
  induction pre with
  | nil => rfl
  | cons d rest ih =>
      have hd : d ≠ 'R' := hpre d (List.mem_cons_self d rest)
      have hrest : ∀ d' ∈ rest, d' ≠ 'R' := fun d' h' => hpre d' (List.mem_cons_of_mem _ h')
      rw [List.cons_append, findFirstResp, respAt_of_head_ne d _ hd]
      exact ih hrest

theorem goIsDigit_ne_R (d : Char) (h : goIsDigit d = true) : d ≠ 'R' := by
  intro he
  subst he
  exact absurd h (by decide)

theorem goIsSpace_ne_R (w : Char) (h : goIsSpace w = true) : w ≠ 'R' := by
  intro he
  subst he
  exact absurd h (by decide)

theorem numAt_some (l m after : Str) (h : numAt l = some (m, after)) :
    ∃ ds ws c, ds ≠ [] ∧ (∀ d ∈ ds, goIsDigit d = true) ∧ (∀ w ∈ ws, goIsSpace w = true) ∧
      goIsUpper c = true ∧ m = ds ++ '.' :: (ws ++ (respHead ++ [c])) ∧ l = m ++ after := by
  unfold numAt at h
  by_cases h1 : (l.takeWhile goIsDigit).isEmpty
  · rw [if_pos h1] at h
    simp at h
  · rw [if_neg h1] at h
    cases hd : l.dropWhile goIsDigit with
    | nil => rw [hd] at h; simp at h
    | cons c0 r2 =>
        rw [hd] at h
        by_cases hc0 : c0 = '.'
        · subst hc0
          simp only [eq_self_iff_true, if_true] at h
          cases hra : respAt (r2.dropWhile goIsSpace) with
          | none => rw [hra] at h; simp at h
          | some p =>
              obtain ⟨m', after'⟩ := p
              rw [hra] at h
              simp only [Option.some.injEq, Prod.mk.injEq] at h
              obtain ⟨c, hup, hm', hsplit⟩ := respAt_some _ _ _ hra
              refine ⟨l.takeWhile goIsDigit, r2.takeWhile goIsSpace, c, ?_, ?_, ?_, hup, ?_, ?_⟩
              · intro he
                rw [he] at h1
                exact h1 rfl
              · exact fun d hdig => List.mem_takeWhile_imp hdig
              · exact fun w hsp => List.mem_takeWhile_imp hsp
              · rw [← h.1, hm']
              · rw [← h.1, ← h.2]
                calc l = l.takeWhile goIsDigit ++ l.dropWhile goIsDigit :=
                      (List.takeWhile_append_dropWhile ..).symm
                  _ = l.takeWhile goIsDigit ++ ('.' :: r2) := by rw [hd]
                  _ = l.takeWhile goIsDigit
                        ++ ('.' :: (r2.takeWhile goIsSpace ++ r2.dropWhile goIsSpace)) := by
                      rw [List.takeWhile_append_dropWhile]
                  _ = l.takeWhile goIsDigit
                        ++ ('.' :: (r2.takeWhile goIsSpace ++ (m' ++ after'))) := by
                      rw [hsplit]
                  _ = (l.takeWhile goIsDigit ++ '.' :: (r2.takeWhile goIsSpace ++ m'))
                        ++ after' := by
                      simp [List.append_assoc]
        · simp [hc0] at h

theorem scanNum_mem (l : Str) (skip : Nat) (u : Str) (hu : u ∈ scanNum l skip) :
    ∃ ds ws c, ds ≠ [] ∧ (∀ d ∈ ds, goIsDigit d = true) ∧ (∀ w ∈ ws, goIsSpace w = true) ∧
      goIsUpper c = true ∧ u = ds ++ '.' :: (ws ++ (respHead ++ [c])) := by
  induction l generalizing skip with
  | nil => simp [scanNum] at hu
  | cons c rest ih =>
      cases skip with
      | succ k =>
          rw [scanNum] at hu
          exact ih k hu
      | zero =>
          cases hn : numAt (c :: rest) with
          | none =>
              rw [scanNum, hn] at hu
              exact ih 0 hu
          | some p =>
              obtain ⟨m, after⟩ := p
              rw [scanNum, hn] at hu
              rcases List.mem_cons.mp hu with h | h
              · obtain ⟨ds, ws, cc, h2, h3, h4, h5, h6, _⟩ := numAt_some _ _ _ hn
                exact ⟨ds, ws, cc, h2, h3, h4, h5, h ▸ h6⟩
              · exact ih _ h

theorem scanResp_mem (l : Str) (skip : Nat) (u : Str) (hu : u ∈ scanResp l skip) :
    ∃ c, goIsUpper c = true ∧ u = respHead ++ [c] := by
  induction l generalizing skip with
  | nil => simp [scanResp] at hu
  | cons c rest ih =>
      cases skip with
      | succ k =>
          rw [scanResp] at hu
          exact ih k hu
      | zero =>
          cases hr : respAt (c :: rest) with
          | none =>
              rw [scanResp, hr] at hu
              exact ih 0 hu
          | some p =>
              obtain ⟨m, after⟩ := p
              rw [scanResp, hr] at hu
              rcases List.mem_cons.mp hu with h | h
              · obtain ⟨cc, h1, h2, _⟩ := respAt_some _ _ _ hr
                exact ⟨cc, h1, h ▸ h2⟩
              · exact ih _ h

/-- The `Response <letter>` label embedded in a numbered-list match is what
`regexp.FindString` recovers from it. -/
theorem findFirstResp_numbered (ds ws : Str) (c : Char)
    (hds : ∀ d ∈ ds, goIsDigit d = true) (hws : ∀ w ∈ ws, goIsSpace w = true)
    (hup : goIsUpper c = true) :
    findFirstResp (ds ++ '.' :: (ws ++ (respHead ++ [c]))) = some (respHead ++ [c]) := by
  have hpre : ∀ d ∈ ds ++ '.' :: ws, d ≠ 'R' := by
    intro d hd
    rcases List.mem_append.mp hd with h | h
    · exact goIsDigit_ne_R d (hds d h)
    · rcases List.mem_cons.mp h with h' | h'
      · rw [h']; decide
      · exact goIsSpace_ne_R d (hws d h')
  have hsh : ds ++ '.' :: (ws ++ (respHead ++ [c])) = (ds ++ '.' :: ws) ++ (respHead ++ c :: []) := by
    simp [List.append_assoc]
  rw [hsh, findFirstResp_append_of_ne _ _ hpre,
      findFirstResp_of_respAt _ _ _ (respAt_match c [] hup)]

theorem catList_cons {α : Type} (a : List α) (l : List (List α)) :
    catList (a :: l) = a ++ catList l := rfl

/- ### Parse-branch lemmas -/

theorem parse_no_marker (text : Str) (h : afterFirst marker text = none) :
    ParseRankingFromText text = scanResp text 0 := by
  simp [ParseRankingFromText, h]

theorem parse_numbered (text a m : Str) (ms : List Str)
    (h1 : afterFirst marker text = some a)
    (h2 : scanNum (upToNext marker a) 0 = m :: ms) :
    ParseRankingFromText text = (m :: ms).filterMap findFirstResp := by
  simp [ParseRankingFromText, h1, h2]

theorem parse_fallthrough (text a : Str)
    (h1 : afterFirst marker text = some a)
    (h2 : scanNum (upToNext marker a) 0 = [])
    (h3 : scanResp (upToNext marker a) 0 = []) :
    ParseRankingFromText text = scanResp text 0 := by
  simp [ParseRankingFromText, h1, h2, h3]

/- ### Position-collection lemmas -/

theorem addPositionsAux_lookup_nil (ltm : SMap Str) (x : Str) (parsed : List Str)
    (i : Nat) (acc : SMap (List Nat)) (h : occPosAux ltm x i parsed = []) :
    alookup (addPositionsAux ltm i acc parsed) x = alookup acc x := by
  induction parsed generalizing i acc with
  | nil => rfl
  | cons label rest ih =>
      by_cases hc : alookup ltm label = some x
      · simp only [occPosAux, if_pos hc] at h
        exact absurd h (by simp)
      · simp only [occPosAux, if_neg hc] at h
        cases hml : alookup ltm label with
        | none =>
            simp only [addPositionsAux, hml]
            exact ih _ _ h
        | some mn =>
            have hx : x ≠ mn := fun he => hc (he ▸ hml)
            simp only [addPositionsAux, hml]
            rw [ih _ _ h, alookup_ainsert_ne _ _ _ _ hx]

theorem addPositionsAux_lookup (ltm : SMap Str) (x : Str) (parsed : List Str)
    (i : Nat) (acc : SMap (List Nat)) (h : occPosAux ltm x i parsed ≠ []) :
    alookup (addPositionsAux ltm i acc parsed) x
      = some ((alookup acc x).getD [] ++ occPosAux ltm x i parsed) := by
  induction parsed generalizing i acc with
  | nil => exact absurd rfl h
  | cons label rest ih =>
      by_cases hc : alookup ltm label = some x
      · have hstep : addPositionsAux ltm i acc (label :: rest)
            = addPositionsAux ltm (i + 1)
                (ainsert acc x ((alookup acc x).getD [] ++ [i + 1])) rest := by
          simp only [addPositionsAux, hc]
        by_cases hrest : occPosAux ltm x (i + 1) rest = []
        · rw [hstep, addPositionsAux_lookup_nil _ _ _ _ _ hrest, alookup_ainsert_self]
          simp [occPosAux, hc, hrest]
        · rw [hstep, ih _ _ hrest, alookup_ainsert_self]
          simp [occPosAux, hc, List.append_assoc]
      · have hocc : occPosAux ltm x i (label :: rest) = occPosAux ltm x (i + 1) rest := by
          simp only [occPosAux, if_neg hc]
        rw [hocc] at h ⊢
        cases hml : alookup ltm label with
        | none =>
            simp only [addPositionsAux, hml]
            exact ih _ _ h
        | some mn =>
            have hx : x ≠ mn := fun he => hc (he ▸ hml)
            simp only [addPositionsAux, hml]
            rw [ih _ _ h, alookup_ainsert_ne _ _ _ _ hx]

theorem collectFold_lookup_nil (ltm : SMap Str) (x : Str) (s2 : List Stage2Ranking)
    (acc : SMap (List Nat)) (h : occPositions s2 ltm x = []) :
    alookup (s2.foldl (fun acc r => addPositionsAux ltm 0 acc r.parsedRanking) acc) x
      = alookup acc x := by
  induction s2 generalizing acc with
  | nil => rfl
  | cons r rest ih =>
      rw [occPositions, List.map_cons, catList_cons, List.append_eq_nil] at h
      rw [List.foldl_cons, ih _ h.2, addPositionsAux_lookup_nil _ _ _ _ _ h.1]

theorem collectFold_lookup (ltm : SMap Str) (x : Str) (s2 : List Stage2Ranking)
    (acc : SMap (List Nat)) (h : occPositions s2 ltm x ≠ []) :
    alookup (s2.foldl (fun acc r => addPositionsAux ltm 0 acc r.parsedRanking) acc) x
      = some ((alookup acc x).getD [] ++ occPositions s2 ltm x) := by
  induction s2 generalizing acc with
  | nil => exact absurd rfl h
  | cons r rest ih =>
      rw [occPositions, List.map_cons, catList_cons] at h ⊢
      rw [List.foldl_cons]
      by_cases h1 : occPosAux ltm x 0 r.parsedRanking = []
      · rw [h1, List.nil_append] at h ⊢
        rw [ih _ h, addPositionsAux_lookup_nil _ _ _ _ _ h1]
        rfl
      · by_cases h2 : occPositions rest ltm x = []
        · rw [show occPositions rest ltm x = catList (rest.map fun r =>
                occPosAux ltm x 0 r.parsedRanking) from rfl] at h2
          rw [h2, List.append_nil]
          rw [collectFold_lookup_nil ltm x rest _ h2, addPositionsAux_lookup _ _ _ _ _ h1]
        · rw [show occPositions rest ltm x = catList (rest.map fun r =>
                occPosAux ltm x 0 r.parsedRanking) from rfl] at h2 ih
          rw [ih _ h2, addPositionsAux_lookup _ _ _ _ _ h1]
          simp [List.append_assoc]


theorem collectPositions_lookup_nil (s2 : List Stage2Ranking) (ltm : SMap Str) (x : Str)
    (h : occPositions s2 ltm x = []) : alookup (collectPositions s2 ltm) x = none := by
  rw [collectPositions, collectFold_lookup_nil _ _ _ _ h, alookup_nil]

theorem collectPositions_lookup (s2 : List Stage2Ranking) (ltm : SMap Str) (x : Str)
    (h : occPositions s2 ltm x ≠ []) :
    alookup (collectPositions s2 ltm) x = some (occPositions s2 ltm x) := by
  rw [collectPositions, collectFold_lookup _ _ _ _ h]
  rfl

theorem nodup_skeys_addPositionsAux (ltm : SMap Str) (parsed : List Str) (i : Nat)
    (acc : SMap (List Nat)) (h : (skeys acc).Nodup) :
    (skeys (addPositionsAux ltm i acc parsed)).Nodup := by
  induction parsed generalizing i acc with
  | nil => exact h
  | cons label rest ih =>
      cases hml : alookup ltm label with
      | none =>
          simp only [addPositionsAux, hml]
          exact ih _ _ h
      | some mn =>
          simp only [addPositionsAux, hml]
          exact ih _ _ (nodup_skeys_ainsert _ _ _ h)

theorem nodup_skeys_collectPositions (s2 : List Stage2Ranking) (ltm : SMap Str) :
    (skeys (collectPositions s2 ltm)).Nodup := by
  rw [collectPositions]
  generalize hacc : ([] : SMap (List Nat)) = acc
  have h : (skeys acc).Nodup := by rw [← hacc]; exact List.nodup_nil
  clear hacc
  induction s2 generalizing acc with
  | nil => exact h
  | cons r rest ih =>
      rw [List.foldl_cons]
      exact ih _ (nodup_skeys_addPositionsAux _ _ _ _ h)

/-- Membership characterization of the aggregate output: exactly the models
with at least one collected position, each with the exact mean of its
occurrence positions and their count. -/
theorem mem_calcAgg_iff (s2 : List Stage2Ranking) (ltm : SMap Str) (e : AggregateRanking) :
    e ∈ CalculateAggregateRankings s2 ltm
      ↔ ∃ model, occPositions s2 ltm model ≠ []
          ∧ e = ⟨model, ((occPositions s2 ltm model).sum : ℚ)
                          / ((occPositions s2 ltm model).length : ℚ),
                 (occPositions s2 ltm model).length⟩ := by
  rw [CalculateAggregateRankings, List.mem_insertionSort, buildAggregate, List.mem_filterMap]
  constructor
  · rintro ⟨p, hp, he⟩
    by_cases hl : p.2.length > 0
    · rw [if_pos hl] at he
      have hne : p.2 ≠ [] := by
        intro h0
        rw [h0] at hl
        simp at hl
      have hlk : alookup (collectPositions s2 ltm) p.1 = some p.2 :=
        alookup_of_mem_nodup _ _ _ (by simpa using hp) (nodup_skeys_collectPositions s2 ltm)
      have hocc : occPositions s2 ltm p.1 ≠ [] := by
        intro h0
        rw [collectPositions_lookup_nil _ _ _ h0] at hlk
        simp at hlk
      have hpv : p.2 = occPositions s2 ltm p.1 := by
        rw [collectPositions_lookup _ _ _ hocc] at hlk
        simpa using hlk.symm
      refine ⟨p.1, hocc, ?_⟩
      have he' : (⟨p.1, ((p.2.sum : ℚ) / (p.2.length : ℚ)), p.2.length⟩ : AggregateRanking)
          = e := by simpa using he
      rw [← he', hpv]
    · rw [if_neg hl] at he
      simp at he
  · rintro ⟨model, hocc, he⟩
    refine ⟨(model, occPositions s2 ltm model), ?_, ?_⟩
    · exact mem_of_alookup_eq_some _ _ _ (collectPositions_lookup _ _ _ hocc)
    · rw [if_pos (by simpa using List.length_pos.mpr hocc)]
      rw [he]

/- ### Label-map lemmas -/

theorem labelChar_inj_lt : ∀ i < 26, ∀ j < 26, labelChar i = labelChar j → i = j := by
  decide

theorem labelFor_inj (i j : Nat) (hi : i < 26) (hj : j < 26) (h : labelFor i = labelFor j) :
    i = j := by
  have hc : labelChar i = labelChar j := by
    have := List.append_cancel_left h
    simpa using this
  exact labelChar_inj_lt i hi j hj hc

theorem labelMapAux_lookup_out (s1 : List Stage1Response) (i0 : Nat) (acc : SMap Str)
    (k : Str) (h : ∀ j, j < s1.length → k ≠ labelFor (i0 + j)) :
    alookup (labelMapAux i0 acc s1) k = alookup acc k := by
  induction s1 generalizing i0 acc with
  | nil => rfl
  | cons r rest ih =>
      rw [labelMapAux]
      rw [ih (i0 + 1) _ fun j hj => by
        have := h (j + 1) (by simpa using Nat.succ_lt_succ hj)
        simpa [Nat.add_assoc, Nat.add_comm 1 j] using this]
      exact alookup_ainsert_ne _ _ _ _ (by simpa using h 0 (by simp))

theorem labelMapAux_lookup (s1 : List Stage1Response) (i0 : Nat) (acc : SMap Str)
    (j : Nat) (hj : j < s1.length) (h26 : i0 + s1.length ≤ 26) :
    alookup (labelMapAux i0 acc s1) (labelFor (i0 + j)) = some ((s1.get ⟨j, hj⟩).model) := by
  induction s1 generalizing i0 acc j with
  | nil => simp at hj
  | cons r rest ih =>
      cases j with
      | zero =>
          rw [labelMapAux]
          simp only [Nat.add_zero]
          rw [labelMapAux_lookup_out rest (i0 + 1) _ (labelFor i0) fun j' hj' => by
            intro he
            have hi0 : i0 < 26 := by
              have := h26
              simp [List.length_cons] at this
              omega
            have hij : i0 + 1 + j' < 26 := by
              have := h26
              simp [List.length_cons] at this
              omega
            have := labelFor_inj i0 (i0 + 1 + j') hi0 hij he
            omega]
          rw [alookup_ainsert_self]
          rfl
      | succ j' =>
          have hj' : j' < rest.length := by simpa using Nat.lt_of_succ_lt_succ hj
          rw [labelMapAux, show i0 + (j' + 1) = (i0 + 1) + j' by omega]
          rw [ih (i0 + 1) _ j' hj' (by simp [List.length_cons] at h26; omega)]
          rfl

theorem labelMapOf_lookup (s1 : List Stage1Response) (h26 : s1.length ≤ 26)
    (i : Nat) (hi : i < s1.length) :
    alookup (labelMapOf s1) (labelFor i) = some ((s1.get ⟨i, hi⟩).model) := by
  have := labelMapAux_lookup s1 0 [] i hi (by simpa using h26)
  simpa using this

theorem ainsert_length_none {α : Type} (m : SMap α) (k : Str) (v : α)
    (h : alookup m k = none) : (ainsert m k v).length = m.length + 1 := by
  induction m with
  | nil => rfl
  | cons hd tl ih =>
      obtain ⟨k', v'⟩ := hd
      rw [alookup_cons] at h
      by_cases hk : k = k'
      · rw [if_pos hk] at h
        simp at h
      · rw [if_neg hk] at h
        simp [ainsert, hk, ih h]

theorem labelMapAux_length (s1 : List Stage1Response) (i0 : Nat) (acc : SMap Str)
    (h26 : i0 + s1.length ≤ 26)
    (hacc : ∀ j, j < s1.length → alookup acc (labelFor (i0 + j)) = none) :
    (labelMapAux i0 acc s1).length = acc.length + s1.length := by
  induction s1 generalizing i0 acc with
  | nil => rfl
  | cons r rest ih =>
      rw [labelMapAux]
      rw [ih (i0 + 1) _ (by simp [List.length_cons] at h26; omega) fun j hj => by
        rw [alookup_ainsert_ne]
        · have := hacc (j + 1) (by simpa using Nat.succ_lt_succ hj)
          simpa [Nat.add_assoc, Nat.add_comm 1 j] using this
        · intro he
          have hi0 : i0 < 26 := by simp [List.length_cons] at h26; omega
          have hij : i0 + 1 + j < 26 := by
            simp [List.length_cons] at h26
            omega
          have := labelFor_inj (i0 + 1 + j) i0 hij hi0 he
          omega]
      rw [ainsert_length_none _ _ _ (by simpa using hacc 0 (by simp))]
      simp [List.length_cons]
      omega

theorem labelMapOf_length (s1 : List Stage1Response) (h26 : s1.length ≤ 26) :
    (labelMapOf s1).length = s1.length := by
  have := labelMapAux_length s1 0 [] (by simpa using h26) (fun j hj => rfl)
  simpa using this

theorem responsesTextAux_eq (s1 : List Stage1Response) (i : Nat) (acc : Str) :
    responsesTextAux i acc s1 = acc ++ respCat i s1 := by
  induction s1 generalizing i acc with
  | nil => simp [responsesTextAux, respCat]
  | cons r rest ih =>
      rw [responsesTextAux, respCat, ih, List.append_assoc]

theorem responsesTextOf_eq (s1 : List Stage1Response) :
    responsesTextOf s1 = respCat 0 s1 := by
  rw [responsesTextOf, responsesTextAux_eq]
  rfl

theorem foldl_append_eq_cat {α : Type} (f : α → Str) (l : List α) (acc : Str) :
    l.foldl (fun a r => a ++ f r) acc = acc ++ catList (l.map f) := by
  induction l generalizing acc with
  | nil => simp [catList]
  | cons r rest ih =>
      rw [List.foldl_cons, ih, List.map_cons, catList_cons, List.append_assoc]

theorem stage1TextOf_eq (s1 : List Stage1Response) :
    stage1TextOf s1 = catList (s1.map fun r =>
      str "Model: " ++ r.model ++ str "\nResponse: " ++ r.response ++ str "\n\n") := by
  rw [stage1TextOf, foldl_append_eq_cat]
  rfl

/- ### Orchestrator lemmas -/

theorem stage1Collect_ok (invoke : Invoker) (cm : List Str) (q : Str) :
    Stage1CollectResponses invoke cm q = .ok (stage1ListOf invoke cm q) := by
  simp [Stage1CollectResponses, queryModelsParallel_err_none]

theorem stage2Collect_ok (invoke : Invoker) (cm : List Str) (q : Str)
    (s1 : List Stage1Response) :
    Stage2CollectRankings invoke cm q s1
      = .ok (stage2ListOf invoke cm q s1, labelMapOf s1) := by
  simp [Stage2CollectRankings, queryModelsParallel_err_none]

theorem calcAgg_nil (ltm : SMap Str) : CalculateAggregateRankings [] ltm = [] := rfl

theorem ne_append_of_take_ne (a b e0 : Str) (k : Nat) (hk : k ≤ b.length)
    (h : a.take k ≠ b.take k) : a ≠ b ++ e0 := by
  intro he
  apply h
  rw [he, List.take_append_eq_append_take, Nat.sub_eq_zero_of_le hk, List.take_zero,
      List.append_nil]

/- ### Claim theorems -/

/-- C7: for every input without the marker `FINAL RANKING:`,
`ParseRankingFromText` returns all `Response <letter>` occurrences of the
whole text in document order (each returned item is a `Response <uppercase>`
label); in particular the fallback example parses to
`["Response A", "Response C"]` and the empty string parses to `[]`. -/
theorem c7_no_marker_whole_text_scan (text : Str)
    (h : afterFirst marker text = none) :
    ParseRankingFromText text = scanResp text 0
    ∧ (∀ u ∈ scanResp text 0, ∃ c, goIsUpper c = true ∧ u = respHead ++ [c])
    ∧ ParseRankingFromText (str "I think Response A is best, then Response C.")
        = [str "Response A", str "Response C"]
    ∧ ParseRankingFromText [] = [] :=
  ⟨parse_no_marker text h, fun u hu => scanResp_mem text 0 u hu, by decide, by decide⟩

theorem c7_witness :
    ParseRankingFromText (str "no ranking marker here")
        = scanResp (str "no ranking marker here") 0
    ∧ (∀ u ∈ scanResp (str "no ranking marker here") 0,
        ∃ c, goIsUpper c = true ∧ u = respHead ++ [c])
    ∧ ParseRankingFromText (str "I think Response A is best, then Response C.")
        = [str "Response A", str "Response C"]
    ∧ ParseRankingFromText [] = [] :=
  c7_no_marker_whole_text_scan (str "no ranking marker here") (by decide)

/-- C1 counterexample: the marker is present and the ranking section (the text
after the marker) has neither a numbered-list match nor a `Response <letter>`
occurrence, yet the parser does fall back to the whole raw text and returns
the pre-marker occurrence `Response A` instead of the empty sequence. -/
theorem c1_counterexample :
    afterFirst marker (str "Response A FINAL RANKING: nothing here")
        = some (str " nothing here")
    ∧ scanNum (str " nothing here") 0 = []
    ∧ scanResp (str " nothing here") 0 = []
    ∧ ParseRankingFromText (str "Response A FINAL RANKING: nothing here")
        = [str "Response A"] :=
  ⟨by decide, by decide, by decide, by decide⟩

/-- C1 (amended): when the marker occurs, the ranking section (here the whole
text after the marker, no second marker occurring) yields neither a
numbered-list match nor a `Response <letter>` occurrence, the parser falls
back to scanning the whole raw text; it returns the empty sequence exactly
when the whole text has no occurrence either, as on the spec's example. -/
theorem c1_marker_empty_section_falls_back (text a : Str)
    (h1 : afterFirst marker text = some a)
    (ho : upToNext marker a = a)
    (h2 : scanNum a 0 = [])
    (h3 : scanResp a 0 = []) :
    ParseRankingFromText text = scanResp text 0
    ∧ ParseRankingFromText (str "FINAL RANKING:\nNo responses to rank.") = [] :=
  ⟨parse_fallthrough text a h1 (by rw [ho]; exact h2) (by rw [ho]; exact h3), by decide⟩

theorem c1_witness :
    ParseRankingFromText (str "Response A FINAL RANKING: nothing here")
        = scanResp (str "Response A FINAL RANKING: nothing here") 0
    ∧ ParseRankingFromText (str "FINAL RANKING:\nNo responses to rank.") = [] :=
  c1_marker_empty_section_falls_back (str "Response A FINAL RANKING: nothing here")
    (str " nothing here") (by decide) (by decide) (by decide) (by decide)

/-- C6 counterexample: with a second marker occurrence, the section Go
actually examines (`strings.Split(...)[1]`, the text between the first and
second markers) is just `" x "`, so the numbered match after the second
marker is never parsed; the whole-text fallback then also returns the
pre-marker `Response B`, not the claim's `["Response A"]`. -/
theorem c6_counterexample :
    afterFirst marker (str "Response B FINAL RANKING: x FINAL RANKING:\n1. Response A")
        = some (str " x FINAL RANKING:\n1. Response A")
    ∧ scanNum (str " x FINAL RANKING:\n1. Response A") 0 ≠ []
    ∧ ParseRankingFromText (str "Response B FINAL RANKING: x FINAL RANKING:\n1. Response A")
        = [str "Response B", str "Response A"]
    ∧ ParseRankingFromText (str "Response B FINAL RANKING: x FINAL RANKING:\n1. Response A")
        ≠ [str "Response A"] :=
  ⟨by decide, by decide, by decide, by decide⟩

/-- C6 (amended): the ranking section is the text between the first marker
and its next occurrence (or the end); when it contains numbered-list matches,
the parser returns exactly the `Response <uppercase>` labels embedded in
those matches, in order of occurrence, with the printed rank numbers ignored
(each match ends in its embedded label, and `FindString` recovers it); the
spec's numbered example parses to `["Response B","Response A","Response C"]`. -/
theorem c6_numbered_labels (text a m : Str) (ms : List Str)
    (h1 : afterFirst marker text = some a)
    (h2 : scanNum (upToNext marker a) 0 = m :: ms) :
    ParseRankingFromText text = (m :: ms).filterMap findFirstResp
    ∧ (∀ u ∈ m :: ms, ∃ c, goIsUpper c = true
        ∧ findFirstResp u = some (respHead ++ [c])
        ∧ ∃ pre, u = pre ++ (respHead ++ [c]))
    ∧ ParseRankingFromText (str "FINAL RANKING:\n1. Response B\n2. Response A\n3. Response C")
        = [str "Response B", str "Response A", str "Response C"] := by
  refine ⟨parse_numbered text a m ms h1 h2, ?_, by decide⟩
  intro u hu
  have hu2 : u ∈ scanNum (upToNext marker a) 0 := by rw [h2]; exact hu
  obtain ⟨ds, ws, c, hne, hdig, hsp, hup, hu'⟩ := scanNum_mem (upToNext marker a) 0 u hu2
  refine ⟨c, hup, ?_, ⟨ds ++ '.' :: ws, ?_⟩⟩
  · rw [hu']
    exact findFirstResp_numbered ds ws c hdig hsp hup
  · rw [hu']
    simp [List.append_assoc]

theorem c6_witness :
    ParseRankingFromText (str "FINAL RANKING:\n1. Response B\n2. Response A")
        = ([str "1. Response B", str "2. Response A"]).filterMap findFirstResp
    ∧ (∀ u ∈ [str "1. Response B", str "2. Response A"], ∃ c, goIsUpper c = true
        ∧ findFirstResp u = some (respHead ++ [c])
        ∧ ∃ pre, u = pre ++ (respHead ++ [c]))
    ∧ ParseRankingFromText (str "FINAL RANKING:\n1. Response B\n2. Response A\n3. Response C")
        = [str "Response B", str "Response A", str "Response C"] :=
  c6_numbered_labels (str "FINAL RANKING:\n1. Response B\n2. Response A")
    (str "\n1. Response B\n2. Response A") (str "1. Response B") [str "2. Response A"]
    (by decide) (by decide)

/-- C2 counterexample: with models `a` (succeeding) and `b` (failing), the
returned mapping holds a key for the failed model `b` — bound to `nil` — so
the failed model is not absent from the mapping; the map has one entry per
model, not per successful model. -/
theorem c2_counterexample :
    alookup (QueryModelsParallel mixedInvoker [str "a", str "b"] []).1 (str "b")
        = some none
    ∧ (QueryModelsParallel mixedInvoker [str "a", str "b"] []).1.length = 2 :=
  ⟨by decide, by decide⟩

/-- C2 (amended): for every model set and execution, the mapping returned by
`QueryModelsParallel` has exactly one entry per model — a successful model's
key maps to its response and a failed model's key is present and maps to
`nil` — its keys are exactly the queried models, and no error is returned to
the caller. -/
theorem c2_parallel_map_entries (invoke : Invoker) (models : List Str)
    (messages : List OpenRouterMessage) :
    (QueryModelsParallel invoke models messages).2 = none
    ∧ (skeys (QueryModelsParallel invoke models messages).1).Nodup
    ∧ (∀ model, model ∈ models →
        alookup (QueryModelsParallel invoke models messages).1 model
          = some (invoke model messages).toOption)
    ∧ (∀ model v, alookup (QueryModelsParallel invoke models messages).1 model = some v →
        model ∈ models) :=
  ⟨queryModelsParallel_err_none invoke models messages,
   nodup_skeys_queryModelsParallel invoke models messages,
   fun model h => queryModelsParallel_lookup_mem invoke models messages model h,
   fun model v h => queryModelsParallel_keys_mem invoke models messages model v h⟩

theorem c2_witness :
    alookup (QueryModelsParallel mixedInvoker [str "a", str "b"] []).1 (str "a")
      = some (mixedInvoker (str "a") []).toOption :=
  (c2_parallel_map_entries mixedInvoker [str "a", str "b"] []).2.2.1 (str "a") (by decide)

/-- C3: if the filtered Stage-1 result list is empty (every council model
failed), `RunFullCouncil` returns the fatal "all council models failed to
respond" error — and, the result being an error, no Stage-1/2/3 results and
no metadata. -/
theorem c3_stage1_total_failure_fatal (invoke : Invoker) (cm : List Str) (ch q : Str)
    (h : stage1ListOf invoke cm q = []) :
    RunFullCouncil invoke cm ch q = .error allFailedErr := by
  have h1 := stage1Collect_ok invoke cm q
  rw [h] at h1
  simp [RunFullCouncil, h1]

theorem c3_witness :
    stage1ListOf failAllInvoker [str "m1", str "m2"] (str "q") = []
    ∧ RunFullCouncil failAllInvoker [str "m1", str "m2"] (str "chair") (str "q")
        = .error allFailedErr :=
  ⟨by decide,
   c3_stage1_total_failure_fatal failAllInvoker [str "m1", str "m2"] (str "chair") (str "q")
     (by decide)⟩

/-- C4: if Stage 1 produced at least one result but Stage 2 produced zero
ranking records, the run does not fail there: provided the chairman
invocation succeeds, `RunFullCouncil` completes successfully, with an empty
Stage-2 record list and an empty aggregate-ranking list in the metadata. -/
theorem c4_stage2_empty_nonfatal (invoke : Invoker) (cm : List Str) (ch q : Str)
    (r : OpenRouterResponse)
    (h1 : stage1ListOf invoke cm q ≠ [])
    (h2 : stage2ListOf invoke cm q (stage1ListOf invoke cm q) = [])
    (h3 : invoke ch (stage3MessagesOf q (stage1ListOf invoke cm q) []) = .ok r) :
    RunFullCouncil invoke cm ch q
      = .ok (stage1ListOf invoke cm q, [], ⟨ch, r.content⟩,
             ⟨labelMapOf (stage1ListOf invoke cm q), []⟩) := by
  have hs1 := stage1Collect_ok invoke cm q
  have hs2 := stage2Collect_ok invoke cm q (stage1ListOf invoke cm q)
  rw [h2] at hs2
  have hlen : ¬((stage1ListOf invoke cm q).length = 0) := by
    simpa [List.length_eq_zero] using h1
  simp [RunFullCouncil, hs1, hlen, hs2, Stage3SynthesizeFinal, QueryModel, h3, calcAgg_nil]

theorem c4_witness :
    RunFullCouncil stage2FailInvoker [str "m1"] (str "chair") (str "q")
      = .ok (stage1ListOf stage2FailInvoker [str "m1"] (str "q"), [],
             ⟨str "chair", str "final"⟩,
             ⟨labelMapOf (stage1ListOf stage2FailInvoker [str "m1"] (str "q")), []⟩) :=
  c4_stage2_empty_nonfatal stage2FailInvoker [str "m1"] (str "chair") (str "q")
    ⟨str "final"⟩ (by decide) (by decide) (by rfl)

/-- C5 counterexample: one ranker whose parsed order repeats the label
`Response A` (mapped to model `modelX`).  Only one ranker placed the model,
but the code's support count is 2 — each occurrence is counted — so
`RankingsCount` does not equal the number of rankers that placed the model
(and the average is taken over the 2 occurrences, not over 1 ranker). -/
theorem c5_counterexample :
    ((CalculateAggregateRankings
        [⟨str "ranker", str "", [str "Response A", str "Response A"]⟩]
        [(str "Response A", str "modelX")]).map
      fun e => (e.model, e.rankingsCount))
      = [(str "modelX", 2)]
    ∧ rankersPlacing
        [⟨str "ranker", str "", [str "Response A", str "Response A"]⟩]
        [(str "Response A", str "modelX")] (str "modelX") = 1
    ∧ occPositions [⟨str "ranker", str "", [str "Response A", str "Response A"]⟩]
        [(str "Response A", str "modelX")] (str "modelX") = [1, 2]
    ∧ (2 : Nat) ≠ 1 :=
  ⟨by decide, by decide, by decide, by decide⟩

/-- C5 (amended): for every entry of the aggregator's output, its
`averageRank` is the sum of the 1-based positions of every occurrence of a
label mapped to that model across all parsed rankings, divided by the number
of such occurrences, and `RankingsCount` is that occurrence count (a ranker
whose parsed order repeats a label contributes once per occurrence; when no
ranking repeats a label, occurrences coincide with rankers). -/
theorem c5_average_over_occurrences (s2 : List Stage2Ranking) (ltm : SMap Str)
    (e : AggregateRanking) (he : e ∈ CalculateAggregateRankings s2 ltm) :
    occPositions s2 ltm e.model ≠ []
    ∧ e.averageRank = ((occPositions s2 ltm e.model).sum : ℚ)
        / ((occPositions s2 ltm e.model).length : ℚ)
    ∧ e.rankingsCount = (occPositions s2 ltm e.model).length := by
  obtain ⟨model, hocc, he'⟩ := (mem_calcAgg_iff s2 ltm e).mp he
  subst he'
  exact ⟨hocc, rfl, rfl⟩

theorem c5_witness :
    occPositions singleS2 singleLtm singleEntry.model ≠ []
    ∧ singleEntry.averageRank = ((occPositions singleS2 singleLtm singleEntry.model).sum : ℚ)
        / ((occPositions singleS2 singleLtm singleEntry.model).length : ℚ)
    ∧ singleEntry.rankingsCount = (occPositions singleS2 singleLtm singleEntry.model).length :=
  c5_average_over_occurrences singleS2 singleLtm singleEntry (by
    have h : CalculateAggregateRankings singleS2 singleLtm = [singleEntry] := rfl
    rw [h]
    exact List.mem_cons_self _ _)

/-- C8: the aggregator's output is sorted ascending by average rank, and the
models appearing in it are exactly those assigned at least one position by
some parsed ranking through a label present in the label-to-model map; a
model never ranked by anyone is absent. -/
theorem c8_sorted_and_support (s2 : List Stage2Ranking) (ltm : SMap Str) :
    (CalculateAggregateRankings s2 ltm).Sorted rankLE
    ∧ ∀ model, (∃ e ∈ CalculateAggregateRankings s2 ltm, e.model = model)
        ↔ occPositions s2 ltm model ≠ [] := by
  constructor
  · rw [CalculateAggregateRankings]
    exact List.sorted_insertionSort rankLE _
  · intro model
    constructor
    · rintro ⟨e, he, hm⟩
      obtain ⟨model', hocc, he'⟩ := (mem_calcAgg_iff s2 ltm e).mp he
      subst he'
      exact hm ▸ hocc
    · intro hocc
      exact ⟨⟨model,
        ((occPositions s2 ltm model).sum : ℚ) / ((occPositions s2 ltm model).length : ℚ),
        (occPositions s2 ltm model).length⟩,
        (mem_calcAgg_iff s2 ltm _).mpr ⟨model, hocc, rfl⟩, rfl⟩

/-- C9: labels are assigned in exactly the collection order of the Stage-1
results — the `i`-th result gets `Response <'A'+i>`, the label-to-model map
sends that label to the `i`-th result's model (one entry per result, labels
pairwise distinct: a bijection over the results) — and both the anonymized
Stage-2 block and Stage 3's unanonymized context are built from the same
Stage-1 list in the same unchanged order. -/
theorem c9_label_assignment_order (s1 : List Stage1Response) (h26 : s1.length ≤ 26)
    (i : Nat) (hi : i < s1.length) :
    alookup (labelMapOf s1) (labelFor i) = some ((s1.get ⟨i, hi⟩).model)
    ∧ (labelMapOf s1).length = s1.length
    ∧ (∀ j k, j < s1.length → k < s1.length → labelFor j = labelFor k → j = k)
    ∧ responsesTextOf s1 = respCat 0 s1
    ∧ stage1TextOf s1 = catList (s1.map fun r =>
        str "Model: " ++ r.model ++ str "\nResponse: " ++ r.response ++ str "\n\n") :=
  ⟨labelMapOf_lookup s1 h26 i hi, labelMapOf_length s1 h26,
   fun j k hj hk he => labelFor_inj j k (lt_of_lt_of_le hj h26) (lt_of_lt_of_le hk h26) he,
   responsesTextOf_eq s1, stage1TextOf_eq s1⟩

theorem c9_witness :
    alookup (labelMapOf twoResponses) (labelFor 1) = some (str "m2")
    ∧ (labelMapOf twoResponses).length = 2 :=
  ⟨(c9_label_assignment_order twoResponses (by decide) 1 (by decide)).1,
   (c9_label_assignment_order twoResponses (by decide) 0 (by decide)).2.1⟩

/-- C10: `QueryModelsParallel` never reports an error (each per-model
goroutine swallows its invocation error and returns nil), so the
"stage 1 failed"/"stage 2 failed" wrapping branches of `RunFullCouncil` are
unreachable: every fatal error it returns is either the
all-council-models-failed error or a wrapped Stage-3 chairman failure. -/
theorem c10_only_fatal_errors (invoke : Invoker) (cm : List Str) (ch q : Str)
    (msgs : List OpenRouterMessage) (e : Str)
    (h : RunFullCouncil invoke cm ch q = .error e) :
    (QueryModelsParallel invoke cm msgs).2 = none
    ∧ (e = allFailedErr
        ∨ ∃ e0, e = str "stage 3 failed: " ++ (str "chairman model query failed: " ++ e0))
    ∧ (∀ e0, e ≠ str "stage 1 failed: " ++ e0)
    ∧ (∀ e0, e ≠ str "stage 2 failed: " ++ e0) := by
  have hs1 := stage1Collect_ok invoke cm q
  have hs2 := stage2Collect_ok invoke cm q (stage1ListOf invoke cm q)
  have hdisj : e = allFailedErr
      ∨ ∃ e0, e = str "stage 3 failed: " ++ (str "chairman model query failed: " ++ e0) := by
    by_cases hlen : (stage1ListOf invoke cm q).length = 0
    · left
      simp [RunFullCouncil, hs1, hlen] at h
      exact h.symm
    · cases hch : invoke ch (stage3MessagesOf q (stage1ListOf invoke cm q)
          (stage2ListOf invoke cm q (stage1ListOf invoke cm q))) with
      | error e0 =>
          right
          refine ⟨e0, ?_⟩
          simp [RunFullCouncil, hs1, hlen, hs2, Stage3SynthesizeFinal, QueryModel, hch] at h
          exact h.symm
      | ok r =>
          simp [RunFullCouncil, hs1, hlen, hs2, Stage3SynthesizeFinal, QueryModel, hch] at h
  refine ⟨queryModelsParallel_err_none invoke cm msgs, hdisj, ?_, ?_⟩
  · intro e0
    rcases hdisj with he | ⟨e1, he⟩
    · rw [he]
      exact ne_append_of_take_ne _ _ _ 7 (by decide) (by decide)
    · rw [he]
      refine ne_append_of_take_ne _ _ _ 7 (by decide) ?_
      rw [List.take_append_eq_append_take, Nat.sub_eq_zero_of_le (by decide),
          List.take_zero, List.append_nil]
      decide
  · intro e0
    rcases hdisj with he | ⟨e1, he⟩
    · rw [he]
      exact ne_append_of_take_ne _ _ _ 7 (by decide) (by decide)
    · rw [he]
      refine ne_append_of_take_ne _ _ _ 7 (by decide) ?_
      rw [List.take_append_eq_append_take, Nat.sub_eq_zero_of_le (by decide),
          List.take_zero, List.append_nil]
      decide

theorem c10_witness :
    (QueryModelsParallel failAllInvoker [str "m1", str "m2"] []).2 = none :=
  (c10_only_fatal_errors failAllInvoker [str "m1", str "m2"] (str "chair") (str "q")
    [] allFailedErr (by rfl)).1
